import Mathlib

/-
Verification of the filtering-and-pagination core of a client-side book
catalog browser.  The embedded code is `src/book.js` (the catalog entry and
its filter predicate `matches`) and `src/bookList.js` (the catalog view
`createBookList` with `search`, `getCurrentBookPage`, `remainingCount`,
`nextPage`).  JavaScript strings are modelled as Lean `String`, arrays as
`List`, and the mutable object state as explicit state passing: a method
that mutates the receiver is a function `BookList → ... → BookList × result`.
All operations in the source are exception-free total code (array `filter`,
`slice`, `Math.max`, string `includes`), so every embedded operation is a
total Lean function.
-/

namespace Catalog

/-- A catalog entry (one book record), from `createBook` in `src/book.js`.
The source stores `published: new Date(published)`; no core operation ever
inspects the parsed date, so the raw input value is kept as a string here. -/
structure Book where
  id : String
  title : String
  author : String
  image : String
  description : String
  published : String
  genres : List String
deriving DecidableEq, Repr

/-- The raw data record handed to `createBook` (same seven fields). -/
structure RawBook where
  id : String
  title : String
  author : String
  image : String
  description : String
  published : String
  genres : List String
deriving DecidableEq, Repr

/-- Embeds `createBook` from `src/book.js`: copies the seven attributes
(the date field is kept raw, see `Book`).  The DOM-building method
`previewElement` is presentation glue outside the core and is not modelled. -/
def createBook (r : RawBook) : Book :=
  { id := r.id
    title := r.title
    author := r.author
    image := r.image
    description := r.description
    published := r.published
    genres := r.genres }

/-- The filter criteria triple `{title, author, genre}` decoded from the
search form. -/
structure Filters where
  title : String
  author : String
  genre : String
deriving DecidableEq, Repr

/-- Embeds the `for (const singleGenre of this.genres) { if (genreMatch)
break; if (singleGenre === filters.genre) genreMatch = true }` loop from
`matches` in `src/book.js`: `acc` is the mutable `genreMatch` variable,
initially `filters.genre === 'any'`. -/
def genreLoop (genres : List String) (target : String) (acc : Bool) : Bool :=
  match genres with
  | [] => acc
  | g :: rest =>
      if acc then acc
      else genreLoop rest target (if g == target then true else acc)

/-- Models JS `String.prototype.trim`: removes leading and trailing
whitespace characters from the character sequence. -/
def jsTrim (s : String) : String :=
  String.mk ((s.data.dropWhile Char.isWhitespace).reverse.dropWhile
    Char.isWhitespace).reverse

/-- Models JS `String.prototype.toLowerCase`: lower-cases every character. -/
def jsToLower (s : String) : String :=
  String.mk (s.data.map Char.toLower)

/-- Models JS `String.prototype.includes`: true iff `sub`'s character
sequence occurs contiguously somewhere inside `s`'s. -/
def jsIncludes (s sub : String) : Bool :=
  (List.range (s.data.length + 1)).any (fun i => sub.data.isPrefixOf (s.data.drop i))

/-- Embeds the `matches(filters)` method of `src/book.js`:
title test `!filters.title.trim() || this.title.toLowerCase().includes(
filters.title.toLowerCase())` (a JS string is falsy exactly when empty),
author test `filters.author === 'any' || this.author === filters.author`,
genre test via `genreLoop`, conjunction returned. -/
def Book.«matches» (b : Book) (filters : Filters) : Bool :=
  let titleMatch := (jsTrim filters.title == "")
    || jsIncludes (jsToLower b.title) (jsToLower filters.title)
  let authorMatch := (filters.author == "any") || (b.author == filters.author)
  let genreMatch := genreLoop b.genres filters.genre (filters.genre == "any")
  titleMatch && authorMatch && genreMatch

/-- The catalog view object built by `createBookList` in `src/bookList.js`:
the full entry list `books`, the page size `booksPerPage`, the 1-based page
cursor `currentPage`, and the current filtered subset `matches`. -/
structure BookList where
  books : List Book
  booksPerPage : Nat
  currentPage : Nat
  «matches» : List Book
deriving DecidableEq, Repr

/-- Embeds `createBookList(booksData, booksPerPage)`: `books` and `matches`
are each initialized to `booksData.map(createBook)`, `currentPage` to 1. -/
def createBookList (booksData : List RawBook) (booksPerPage : Nat) : BookList :=
  { books := booksData.map createBook
    booksPerPage := booksPerPage
    currentPage := 1
    «matches» := booksData.map createBook }

/-- JS `Array.prototype.slice(start, stop)` for non-negative in-range-or-
beyond bounds (the only case the view produces, since `currentPage ≥ 1`):
the elements at indices `start ≤ i < stop`, clamped to the array length. -/
def jsSlice (l : List α) (start stop : Nat) : List α :=
  (l.drop start).take (stop - start)

/-- Embeds `search(filters)`: recomputes `this.matches` as
`this.books.filter(book => book.matches(filters))`, resets
`this.currentPage` to 1, and returns the new matches. -/
def BookList.search (bl : BookList) (filters : Filters) : BookList × List Book :=
  let newMatches := bl.books.filter (fun book => book.«matches» filters)
  ({ bl with «matches» := newMatches, currentPage := 1 }, newMatches)

/-- Embeds `getCurrentBookPage()`: `this.matches.slice(start, start +
this.booksPerPage)` with `start = (this.currentPage - 1) * this.booksPerPage`. -/
def BookList.getCurrentBookPage (bl : BookList) : List Book :=
  let start := (bl.currentPage - 1) * bl.booksPerPage
  let stop := start + bl.booksPerPage
  jsSlice bl.«matches» start stop

/-- Embeds `remainingCount()`: `Math.max(0, this.matches.length -
this.currentPage * this.booksPerPage)`, computed over the integers as in JS. -/
def BookList.remainingCount (bl : BookList) : Int :=
  max 0 ((bl.«matches».length : Int) - (bl.currentPage : Int) * (bl.booksPerPage : Int))

/-- Embeds `nextPage()`: if `this.remainingCount() > 0`, increments
`this.currentPage` and returns true; otherwise leaves the state unchanged
and returns false. -/
def BookList.nextPage (bl : BookList) : BookList × Bool :=
  if bl.remainingCount > 0 then
    ({ bl with currentPage := bl.currentPage + 1 }, true)
  else
    (bl, false)

/-- The observable operations a UI layer may invoke on a constructed view
(`getCurrentBookPage` and `remainingCount` are queries; they are listed so
that reachability quantifies over every call the interface exposes). -/
inductive Op where
  | search (filters : Filters)
  | getCurrentBookPage
  | remainingCount
  | nextPage
deriving DecidableEq, Repr

/-- State effect of one operation: `search` and `nextPage` update the state
as in the source; the two queries compute a result without touching it. -/
def applyOp (bl : BookList) : Op → BookList
  | Op.search filters => (bl.search filters).1
  | Op.getCurrentBookPage => bl
  | Op.remainingCount => bl
  | Op.nextPage => bl.nextPage.1

/-- Runs a sequence of operations left to right from a starting state. -/
def runOps (bl : BookList) (ops : List Op) : BookList :=
  ops.foldl applyOp bl

/-- The "take the current page, then advance" reading loop: collect
`getCurrentBookPage()`, stop once `remainingCount() == 0`, otherwise
`nextPage()` and repeat.  `fuel` bounds the iteration count; any
`fuel ≥ matches.length + 1` is enough (shown below). -/
def collectPages (bl : BookList) : Nat → List Book
  | 0 => []
  | fuel + 1 =>
      let page := bl.getCurrentBookPage
      if bl.remainingCount = 0 then page
      else page ++ collectPages bl.nextPage.1 fuel

/-- Sample raw record used to instantiate universally quantified theorems. -/
def r1 : RawBook :=
  { id := "1", title := "Go Fish", author := "a1", image := "", description := ""
    published := "2020-01-01", genres := ["g1"] }

/-- Second sample raw record. -/
def r2 : RawBook :=
  { id := "2", title := "Rust Primer", author := "a2", image := "", description := ""
    published := "2021-01-01", genres := ["g2", "g1"] }

/-- Third sample raw record. -/
def r3 : RawBook :=
  { id := "3", title := "Sea Stories", author := "a1", image := "", description := ""
    published := "2022-01-01", genres := [] }

/-- A sample catalog view over the three sample records with page size 1. -/
def sampleBL : BookList := createBookList [r1, r2, r3] 1

/-- A sample catalog view with page size 2. -/
def sampleBL2 : BookList := createBookList [r1, r2, r3] 2

/-- A filter triple whose author id matches no sample record. -/
def badAuthorF : Filters := { title := "", author := "zzz", genre := "any" }

/-- The identity filter triple of the spec. -/
def idF : Filters := { title := "", author := "any", genre := "any" }

/-- Invariant of every reachable catalog view state: a 1-based page cursor
and a `matches` list that is an order-preserving subsequence of `books`. -/
def ViewInv (bl : BookList) : Prop :=
  1 ≤ bl.currentPage ∧ (bl.«matches»).Sublist bl.books

end Catalog

namespace Catalog

theorem genreLoop_true (genres : List String) (target : String) :
    genreLoop genres target true = true := by
  cases genres <;> simp [genreLoop]

theorem genreLoop_eq (genres : List String) (target : String) (acc : Bool) :
    genreLoop genres target acc = (acc || genres.contains target) := by
  cases acc with
  | true => simp [genreLoop_true]
  | false =>
      simp only [Bool.false_or]
      induction genres with
      | nil => simp [genreLoop]
      | cons g rest ih =>
          have hcc : (g :: rest).contains target = ((target == g) || rest.contains target) := rfl

          cases hgt : (g == target) with
          | true =>
              have hsymm : (target == g) = true := by
                simp only [beq_iff_eq] at hgt ⊢
                exact hgt.symm
              have heq : target = g := by simpa using hsymm
              simp [genreLoop, hgt, genreLoop_true, hcc, hsymm]
              exact Or.inl heq
          | false =>
              have hsymm : (target == g) = false := by
                simp only [beq_eq_false_iff_ne] at hgt ⊢
                exact fun h => hgt h.symm
              have hne : target ≠ g := by simpa using hsymm
              simp [genreLoop, hgt, hcc, hsymm, ih]
              exact fun h => absurd h hne

theorem matches_eq (b : Book) (f : Filters) :
    b.«matches» f =
      (((jsTrim f.title == "")
          || jsIncludes (jsToLower b.title) (jsToLower f.title))
        && ((f.author == "any") || (b.author == f.author))
        && ((f.genre == "any") || b.genres.contains f.genre)) := by
  simp only [Book.«matches», genreLoop_eq]

theorem getCurrentBookPage_eq (bl : BookList) :
    bl.getCurrentBookPage
      = (bl.«matches».drop ((bl.currentPage - 1) * bl.booksPerPage)).take bl.booksPerPage := by
  simp [BookList.getCurrentBookPage, jsSlice]

theorem natCast_mul_eq (c p : Nat) :
    (c : Int) * (p : Int) = ((c * p : Nat) : Int) := by
  push_cast
  ring

theorem remainingCount_eq_zero_iff (bl : BookList) :
    bl.remainingCount = 0 ↔ bl.«matches».length ≤ bl.currentPage * bl.booksPerPage := by
  unfold BookList.remainingCount
  rw [natCast_mul_eq]
  omega

theorem remainingCount_pos_iff (bl : BookList) :
    0 < bl.remainingCount ↔ bl.currentPage * bl.booksPerPage < bl.«matches».length := by
  unfold BookList.remainingCount
  rw [natCast_mul_eq]
  omega

theorem applyOp_books (bl : BookList) (op : Op) :
    (applyOp bl op).books = bl.books ∧ (applyOp bl op).booksPerPage = bl.booksPerPage := by
  cases op with
  | search f => exact ⟨rfl, rfl⟩
  | getCurrentBookPage => exact ⟨rfl, rfl⟩
  | remainingCount => exact ⟨rfl, rfl⟩
  | nextPage =>
      by_cases h : 0 < bl.remainingCount <;>
        simp [applyOp, BookList.nextPage, h]

theorem viewInv_step (bl : BookList) (op : Op) (h : ViewInv bl) :
    ViewInv (applyOp bl op) := by
  cases op with
  | search f =>
      exact ⟨le_refl 1, List.filter_sublist bl.books⟩
  | getCurrentBookPage => exact h
  | remainingCount => exact h
  | nextPage =>
      by_cases hp : 0 < bl.remainingCount
      · refine ⟨?_, ?_⟩
        · show 1 ≤ (bl.nextPage.1).currentPage
          simp only [BookList.nextPage, if_pos hp]
          omega
        · show ((bl.nextPage.1).«matches»).Sublist (bl.nextPage.1).books
          simpa only [BookList.nextPage, if_pos hp] using h.2
      · show ViewInv (bl.nextPage.1)
        simpa only [BookList.nextPage, if_neg hp] using h

theorem viewInv_runOps (bl : BookList) (ops : List Op) (h : ViewInv bl) :
    ViewInv (runOps bl ops) := by
  induction ops generalizing bl with
  | nil => exact h
  | cons op rest ih => exact ih (applyOp bl op) (viewInv_step bl op h)

theorem runOps_books (bl : BookList) (ops : List Op) :
    (runOps bl ops).books = bl.books ∧ (runOps bl ops).booksPerPage = bl.booksPerPage := by
  induction ops generalizing bl with
  | nil => exact ⟨rfl, rfl⟩
  | cons op rest ih =>
      have h1 := applyOp_books bl op
      have h2 := ih (applyOp bl op)
      exact ⟨h2.1.trans h1.1, h2.2.trans h1.2⟩

theorem collectPages_eq_drop (fuel : Nat) :
    ∀ bl : BookList, 1 ≤ bl.currentPage → 1 ≤ fuel →
      bl.«matches».length ≤ (bl.currentPage - 1 + fuel) * bl.booksPerPage →
      collectPages bl fuel
        = bl.«matches».drop ((bl.currentPage - 1) * bl.booksPerPage) := by
  induction fuel with
  | zero =>
      intro bl _ hf _
      exact absurd hf (by omega)
  | succ k ih =>
      intro bl hc _ hlen
      have hmono : bl.currentPage - 1 + (k + 1) = bl.currentPage + k := by omega
      rw [hmono] at hlen
      have h2 : bl.currentPage - 1 + 1 = bl.currentPage := by omega
      have h1 : (bl.currentPage - 1) * bl.booksPerPage + bl.booksPerPage
          = bl.currentPage * bl.booksPerPage := by
        calc (bl.currentPage - 1) * bl.booksPerPage + bl.booksPerPage
            = (bl.currentPage - 1 + 1) * bl.booksPerPage := by ring
          _ = bl.currentPage * bl.booksPerPage := by rw [h2]
      by_cases hz : bl.remainingCount = 0
      · have hle : bl.«matches».length ≤ bl.currentPage * bl.booksPerPage :=
          (remainingCount_eq_zero_iff bl).mp hz
        have hdlen :
            (bl.«matches».drop ((bl.currentPage - 1) * bl.booksPerPage)).length
              ≤ bl.booksPerPage := by
          rw [List.length_drop]
          rw [← h1] at hle
          generalize (bl.currentPage - 1) * bl.booksPerPage = A at hle ⊢
          omega
        calc collectPages bl (k + 1) = bl.getCurrentBookPage := by
              simp only [collectPages, if_pos hz]
          _ = (bl.«matches».drop ((bl.currentPage - 1) * bl.booksPerPage)).take
                bl.booksPerPage := getCurrentBookPage_eq bl
          _ = bl.«matches».drop ((bl.currentPage - 1) * bl.booksPerPage) :=
              List.take_of_length_le hdlen
      · have hpos : 0 < bl.remainingCount :=
          lt_of_le_of_ne (le_max_left _ _) (Ne.symm hz)
        have hgt := (remainingCount_pos_iff bl).mp hpos
        have hk : 1 ≤ k := by
          rcases Nat.eq_zero_or_pos k with hk0 | hk0
          · subst hk0
            simp only [Nat.add_zero] at hlen
            exact absurd hlen (not_le.mpr hgt)
          · exact hk0
        have hnp : bl.nextPage
            = ({ bl with currentPage := bl.currentPage + 1 }, true) := by
          simp only [BookList.nextPage, if_pos hpos]
        have hlen' : ({ bl with currentPage := bl.currentPage + 1 } :
            BookList).«matches».length
              ≤ (({ bl with currentPage := bl.currentPage + 1 } :
                  BookList).currentPage - 1 + k)
                * ({ bl with currentPage := bl.currentPage + 1 } :
                  BookList).booksPerPage := by
          show bl.«matches».length ≤ (bl.currentPage + 1 - 1 + k) * bl.booksPerPage
          rw [show bl.currentPage + 1 - 1 + k = bl.currentPage + k from by omega]
          exact hlen
        have hrec := ih { bl with currentPage := bl.currentPage + 1 }
          (by show 1 ≤ bl.currentPage + 1; omega) hk hlen'
        have key :
            (bl.«matches».drop ((bl.currentPage - 1) * bl.booksPerPage)).take
                bl.booksPerPage
              ++ bl.«matches».drop (bl.currentPage * bl.booksPerPage)
            = bl.«matches».drop ((bl.currentPage - 1) * bl.booksPerPage) := by
          rw [← h1, ← List.drop_drop, List.take_append_drop]
        calc collectPages bl (k + 1)
            = bl.getCurrentBookPage ++ collectPages bl.nextPage.1 k := by
              simp only [collectPages, if_neg hz]
          _ = (bl.«matches».drop ((bl.currentPage - 1) * bl.booksPerPage)).take
                bl.booksPerPage
              ++ bl.«matches».drop (bl.currentPage * bl.booksPerPage) := by
              rw [getCurrentBookPage_eq, hnp]
              dsimp only
              rw [hrec]
              dsimp only
              congr 1
          _ = bl.«matches».drop ((bl.currentPage - 1) * bl.booksPerPage) := key

theorem contains_eq_decide_mem (l : List String) (a : String) :
    l.contains a = decide (a ∈ l) := by
  show l.elem a = decide (a ∈ l)
  exact List.elem_eq_mem a l

theorem contains_eq_of_perm (a : String) {l1 l2 : List String}
    (h : List.Perm l1 l2) : l1.contains a = l2.contains a := by
  rw [contains_eq_decide_mem, contains_eq_decide_mem]
  exact decide_eq_decide.mpr h.mem_iff

theorem contains_eq_false_of_not_mem {l : List String} {a : String}
    (h : a ∉ l) : l.contains a = false := by
  rw [contains_eq_decide_mem]
  simpa using h

theorem matches_false_of_author (b : Book) (f : Filters)
    (ha : f.author ≠ "any") (hne : b.author ≠ f.author) :
    b.«matches» f = false := by
  rw [matches_eq]
  have h1 : (f.author == "any") = false := by simpa using ha
  have h2 : (b.author == f.author) = false := by simpa using hne
  rw [h1, h2]
  simp

theorem matches_false_of_genre (b : Book) (f : Filters)
    (hg : f.genre ≠ "any") (hnm : f.genre ∉ b.genres) :
    b.«matches» f = false := by
  rw [matches_eq]
  have h1 : (f.genre == "any") = false := by simpa using hg
  have h2 : b.genres.contains f.genre = false := contains_eq_false_of_not_mem hnm
  rw [h1, h2]
  simp

theorem pred_mul_add (c p : Nat) (hc : 1 ≤ c) : (c - 1) * p + p = c * p := by
  have h2 : c - 1 + 1 = c := by omega
  calc (c - 1) * p + p = (c - 1 + 1) * p := by ring
    _ = c * p := by rw [h2]

/-- C1: for every catalog view and criteria triple, `search` sets `matches`
to the order-preserving subsequence of the full entry list `books` whose
entries satisfy the filter predicate (exactly those and no others), resets
`currentPage` to 1 from any prior cursor value (hence regardless of how many
`nextPage` calls preceded it), and returns the new `matches`. -/
theorem search_resets_and_filters_C1 (bl : BookList) (f : Filters) :
    (bl.search f).1.«matches» = bl.books.filter (fun b => b.«matches» f)
    ∧ ((bl.search f).1.«matches»).Sublist bl.books
    ∧ (∀ b ∈ (bl.search f).1.«matches», b.«matches» f = true)
    ∧ (∀ b ∈ bl.books, b.«matches» f = true → b ∈ (bl.search f).1.«matches»)
    ∧ (bl.search f).1.currentPage = 1
    ∧ (bl.search f).2 = (bl.search f).1.«matches» := by
  refine ⟨rfl, List.filter_sublist bl.books, ?_, ?_, rfl, rfl⟩
  · intro b hb
    exact (List.mem_filter.mp hb).2
  · intro b hb hf
    exact List.mem_filter.mpr ⟨hb, hf⟩

/-- C1 witness: a concrete search resets the cursor to 1 and keeps a
concrete matching book in the result. -/
theorem search_resets_and_filters_C1_witness :
    (sampleBL.search idF).1.currentPage = 1
    ∧ createBook r1 ∈ (sampleBL.search idF).1.«matches» :=
  ⟨(search_resets_and_filters_C1 sampleBL idF).2.2.2.2.1,
    (search_resets_and_filters_C1 sampleBL idF).2.2.2.1 (createBook r1)
      (by decide) (by decide)⟩

/-- C2: the filter predicate returns the conjunction of three independent
sub-tests (case-insensitive substring title test, vacuous on blank criteria;
exact author equality or sentinel; genre sentinel or membership anywhere in
`genres`, whose order is irrelevant); failing any one sub-test forces a
false result regardless of the other two. -/
theorem matches_conjunction_C2 (b : Book) (f : Filters) :
    (b.«matches» f =
      (((jsTrim f.title == "")
          || jsIncludes (jsToLower b.title) (jsToLower f.title))
        && ((f.author == "any") || (b.author == f.author))
        && ((f.genre == "any") || b.genres.contains f.genre)))
    ∧ (jsTrim f.title = "" →
        b.«matches» f =
          (((f.author == "any") || (b.author == f.author))
            && ((f.genre == "any") || b.genres.contains f.genre)))
    ∧ ((jsTrim f.title == "") = false →
        jsIncludes (jsToLower b.title) (jsToLower f.title) = false →
        b.«matches» f = false)
    ∧ (f.author ≠ "any" → b.author ≠ f.author → b.«matches» f = false)
    ∧ (f.genre ≠ "any" → f.genre ∉ b.genres → b.«matches» f = false)
    ∧ (∀ genres2 : List String, List.Perm b.genres genres2 →
        Book.«matches» { b with genres := genres2 } f = b.«matches» f) := by
  refine ⟨matches_eq b f, ?_, ?_, ?_, ?_, ?_⟩
  · intro ht
    rw [matches_eq]
    simp [ht]
  · intro ht hsub
    rw [matches_eq, ht, hsub]
    simp
  · exact matches_false_of_author b f
  · exact matches_false_of_genre b f
  · intro genres2 hperm
    rw [matches_eq, matches_eq]
    dsimp only
    rw [contains_eq_of_perm f.genre hperm]

/-- C2 witness: a concrete author mismatch forces a false predicate, and
permuting a concrete book's genre list leaves the predicate unchanged. -/
theorem matches_conjunction_C2_witness :
    (createBook r1).«matches» badAuthorF = false
    ∧ Book.«matches» { createBook r2 with genres := ["g1", "g2"] } idF
      = (createBook r2).«matches» idF :=
  ⟨(matches_conjunction_C2 (createBook r1) badAuthorF).2.2.2.1
      (by decide) (by decide),
    (matches_conjunction_C2 (createBook r2) idF).2.2.2.2.2 ["g1", "g2"]
      (by decide)⟩

/-- C8: searching with the identity filter (blank title, author and genre
sentinels both `any`) recomputes `matches` as the full entry list itself,
in the same order and with the same cardinality, and returns it. -/
theorem search_identity_filter_C8 (bl : BookList) :
    (bl.search idF).1.«matches» = bl.books
    ∧ (bl.search idF).2 = bl.books := by
  have hall : ∀ bk : Book, bk.«matches» idF = true := by
    intro bk
    rw [matches_eq]
    have ht : (jsTrim idF.title == "") = true := by decide
    rw [ht]
    simp [idF, genreLoop_true]
  have hfilter : bl.books.filter (fun bk => bk.«matches» idF) = bl.books :=
    List.filter_eq_self.mpr (fun a _ => hall a)
  exact ⟨hfilter, hfilter⟩

/-- C3: from page 1, with any page size at least 1 and any `matches`
sequence, repeatedly taking the current page and then advancing until
`remainingCount()` is 0 concatenates, in order, to exactly `matches` —
no entry duplicated, none omitted. -/
theorem pagination_exhaustive_C3 (bl : BookList)
    (hp : 1 ≤ bl.booksPerPage) (hc : bl.currentPage = 1) :
    collectPages bl (bl.«matches».length + 1) = bl.«matches» := by
  have hlen : bl.«matches».length
      ≤ (bl.currentPage - 1 + (bl.«matches».length + 1)) * bl.booksPerPage := by
    rw [hc]
    have h0 : 1 - 1 + (bl.«matches».length + 1) = bl.«matches».length + 1 := by
      omega
    rw [h0]
    calc bl.«matches».length ≤ bl.«matches».length + 1 := by omega
      _ = (bl.«matches».length + 1) * 1 := by ring
      _ ≤ (bl.«matches».length + 1) * bl.booksPerPage :=
        Nat.mul_le_mul_left _ hp
  have h := collectPages_eq_drop (bl.«matches».length + 1) bl
    (by omega) (by omega) hlen
  rw [hc] at h
  simpa using h

/-- C3 witness: the three sample books with page size 2 are read out
exactly, in order, by the page-then-advance loop. -/
theorem pagination_exhaustive_C3_witness :
    collectPages sampleBL2 (sampleBL2.«matches».length + 1)
      = sampleBL2.«matches» :=
  pagination_exhaustive_C3 sampleBL2 (by decide) (by decide)

/-- C4: `nextPage` increments the cursor by exactly 1, touches nothing
else, and returns true when `remainingCount() > 0`; otherwise it is an
identity returning false; it returns false exactly when `remainingCount()`
is 0; and a successful advance lowers `remainingCount()` by the page size,
clamped at 0. -/
theorem nextPage_spec_C4 (bl : BookList) :
    (0 < bl.remainingCount →
        bl.nextPage.1.currentPage = bl.currentPage + 1
        ∧ bl.nextPage.1.«matches» = bl.«matches»
        ∧ bl.nextPage.1.books = bl.books
        ∧ bl.nextPage.1.booksPerPage = bl.booksPerPage
        ∧ bl.nextPage.2 = true)
    ∧ (bl.remainingCount = 0 → bl.nextPage = (bl, false))
    ∧ (bl.nextPage.2 = false ↔ bl.remainingCount = 0)
    ∧ (bl.nextPage.2 = true →
        bl.nextPage.1.remainingCount
          = max 0 (bl.remainingCount - (bl.booksPerPage : Int))) := by
  have h0 : 0 ≤ bl.remainingCount := le_max_left _ _
  by_cases hp : 0 < bl.remainingCount
  · have hnp : bl.nextPage
        = ({ bl with currentPage := bl.currentPage + 1 }, true) := by
      simp only [BookList.nextPage, if_pos hp]
    refine ⟨fun _ => ?_, fun hz => absurd hz (by omega), ?_, fun _ => ?_⟩
    · rw [hnp]
      exact ⟨rfl, rfl, rfl, rfl, rfl⟩
    · rw [hnp]
      constructor
      · intro hfalse
        exact absurd hfalse (by simp)
      · intro hz
        exact absurd hz (by omega)
    · rw [hnp]
      show BookList.remainingCount _ = _
      unfold BookList.remainingCount
      dsimp only
      have hd : ((bl.currentPage + 1 : Nat) : Int) * (bl.booksPerPage : Int)
          = (bl.currentPage : Int) * (bl.booksPerPage : Int)
            + (bl.booksPerPage : Int) := by
        push_cast
        ring
      rw [hd]
      generalize (bl.currentPage : Int) * (bl.booksPerPage : Int) = A
      omega
  · have hz : bl.remainingCount = 0 := by omega
    have hnp : bl.nextPage = (bl, false) := by
      simp only [BookList.nextPage, if_neg hp]
    refine ⟨fun hgt => absurd hgt hp, fun _ => hnp, ?_, fun htrue => ?_⟩
    · rw [hnp]
      exact ⟨fun _ => hz, fun _ => rfl⟩
    · rw [hnp] at htrue
      exact absurd htrue (by simp)

/-- C4 witness: on the sample view (three matches, page size 1, page 1)
`nextPage` advances to page 2, returns true, and drops the remaining count
by the page size. -/
theorem nextPage_spec_C4_witness :
    sampleBL.nextPage.1.currentPage = sampleBL.currentPage + 1
    ∧ sampleBL.nextPage.2 = true
    ∧ sampleBL.nextPage.1.remainingCount
        = max 0 (sampleBL.remainingCount - (sampleBL.booksPerPage : Int)) := by
  have h := nextPage_spec_C4 sampleBL
  have hp : 0 < sampleBL.remainingCount := by decide
  exact ⟨(h.1 hp).1, (h.1 hp).2.2.2.2, h.2.2.2 (h.1 hp).2.2.2.2⟩

/-- C5: `getCurrentBookPage` returns the slice of `matches` from
`(currentPage-1)*pageSize` to `currentPage*pageSize`, clamped to the
available tail when the bounds pass the end (never failing), and mutates
no state. -/
theorem getCurrentBookPage_spec_C5 (bl : BookList) (h : 1 ≤ bl.currentPage) :
    bl.getCurrentBookPage
      = (bl.«matches».take (bl.currentPage * bl.booksPerPage)).drop
          ((bl.currentPage - 1) * bl.booksPerPage)
    ∧ (bl.«matches».length ≤ bl.currentPage * bl.booksPerPage →
        bl.getCurrentBookPage
          = bl.«matches».drop ((bl.currentPage - 1) * bl.booksPerPage))
    ∧ bl.getCurrentBookPage.length ≤ bl.booksPerPage
    ∧ bl.getCurrentBookPage.Sublist bl.«matches»
    ∧ applyOp bl Op.getCurrentBookPage = bl := by
  refine ⟨?_, ?_, ?_, ?_, rfl⟩
  · rw [getCurrentBookPage_eq, List.take_drop,
      pred_mul_add bl.currentPage bl.booksPerPage h]
  · intro hge
    rw [getCurrentBookPage_eq]
    apply List.take_of_length_le
    rw [List.length_drop]
    rw [← pred_mul_add bl.currentPage bl.booksPerPage h] at hge
    generalize (bl.currentPage - 1) * bl.booksPerPage = A at hge ⊢
    omega
  · rw [getCurrentBookPage_eq]
    exact List.length_take_le _ _
  · rw [getCurrentBookPage_eq]
    exact (List.take_sublist _ _).trans (List.drop_sublist _ _)

/-- C5 witness: on the sample view with page size 2 the current page is
the stated slice and fits within the page size. -/
theorem getCurrentBookPage_spec_C5_witness :
    sampleBL2.getCurrentBookPage
      = (sampleBL2.«matches».take
          (sampleBL2.currentPage * sampleBL2.booksPerPage)).drop
          ((sampleBL2.currentPage - 1) * sampleBL2.booksPerPage)
    ∧ sampleBL2.getCurrentBookPage.length ≤ sampleBL2.booksPerPage := by
  have h := getCurrentBookPage_spec_C5 sampleBL2 (by decide)
  exact ⟨h.1, h.2.2.1⟩

/-- C6: `remainingCount` equals `max(0, matches.length -
currentPage*pageSize)`, is never negative, and counts exactly the entries
of `matches` past the prefix covered by pages 1 through the current one. -/
theorem remainingCount_spec_C6 (bl : BookList) :
    bl.remainingCount
      = max 0 ((bl.«matches».length : Int)
          - (bl.currentPage : Int) * (bl.booksPerPage : Int))
    ∧ 0 ≤ bl.remainingCount
    ∧ bl.remainingCount
      = ((bl.«matches».drop (bl.currentPage * bl.booksPerPage)).length : Int)
    ∧ bl.«matches».take (bl.currentPage * bl.booksPerPage)
        ++ bl.«matches».drop (bl.currentPage * bl.booksPerPage)
      = bl.«matches» := by
  refine ⟨rfl, le_max_left _ _, ?_, List.take_append_drop _ _⟩
  unfold BookList.remainingCount
  rw [List.length_drop, natCast_mul_eq]
  omega

/-- C7: in every state reachable from construction by any sequence of the
exposed operations, `currentPage ≥ 1` and `matches` is an order-preserving
subsequence of the full entry list; immediately after construction,
`matches` is a copy of the entries and `currentPage` is 1. -/
theorem reachable_invariants_C7 (booksData : List RawBook) (p : Nat)
    (ops : List Op) :
    1 ≤ (runOps (createBookList booksData p) ops).currentPage
    ∧ ((runOps (createBookList booksData p) ops).«matches»).Sublist
        (booksData.map createBook)
    ∧ (createBookList booksData p).«matches» = booksData.map createBook
    ∧ (createBookList booksData p).currentPage = 1 := by
  have h0 : ViewInv (createBookList booksData p) :=
    ⟨le_refl 1, List.Sublist.refl _⟩
  have h := viewInv_runOps (createBookList booksData p) ops h0
  have hb := (runOps_books (createBookList booksData p) ops).1
  refine ⟨h.1, ?_, rfl, rfl⟩
  have hs := h.2
  rw [hb] at hs
  exact hs

/-- C9: the core operations are total and never raise: an empty search
result leaves every query and transition well defined, paging past the end
clamps or no-ops, and an author or genre value that is neither an existing
id nor the sentinel simply fails that sub-test.  In this embedding every
operation is a total function, so no exception path exists at all. -/
theorem safety_spec_C9 :
    (∀ (bl : BookList) (f : Filters),
        (bl.search f).1.«matches» = [] →
          (bl.search f).1.getCurrentBookPage = []
          ∧ (bl.search f).1.remainingCount = 0
          ∧ ((bl.search f).1.nextPage).2 = false)
    ∧ (∀ bl : BookList, bl.remainingCount = 0 → bl.nextPage = (bl, false))
    ∧ (∀ bl : BookList, bl.getCurrentBookPage.length ≤ bl.booksPerPage)
    ∧ (∀ (b : Book) (f : Filters),
        f.author ≠ "any" → b.author ≠ f.author → b.«matches» f = false)
    ∧ (∀ (b : Book) (f : Filters),
        f.genre ≠ "any" → f.genre ∉ b.genres → b.«matches» f = false) := by
  have hstop : ∀ bl : BookList, bl.remainingCount = 0 → bl.nextPage = (bl, false) := by
    intro bl hz
    have hneg : ¬ (0 < bl.remainingCount) := by omega
    simp only [BookList.nextPage, if_neg hneg]
  refine ⟨?_, hstop, ?_, matches_false_of_author, matches_false_of_genre⟩
  · intro bl f hempty
    have hz : (bl.search f).1.remainingCount = 0 :=
      (remainingCount_eq_zero_iff _).mpr (by rw [hempty]; simp)
    refine ⟨?_, hz, ?_⟩
    · rw [getCurrentBookPage_eq, hempty]
      simp
    · rw [hstop _ hz]
  · intro bl
    rw [getCurrentBookPage_eq]
    exact List.length_take_le _ _

/-- C9 witness: a search whose author id matches nothing yields the empty
result, zero remaining, a refusing `nextPage`, and a false predicate on a
concrete book. -/
theorem safety_spec_C9_witness :
    (sampleBL.search badAuthorF).1.«matches» = []
    ∧ (sampleBL.search badAuthorF).1.remainingCount = 0
    ∧ ((sampleBL.search badAuthorF).1.nextPage).2 = false
    ∧ (createBook r1).«matches» badAuthorF = false := by
  have hemp : (sampleBL.search badAuthorF).1.«matches» = [] := by decide
  have h := safety_spec_C9
  exact ⟨hemp, (h.1 sampleBL badAuthorF hemp).2.1,
    (h.1 sampleBL badAuthorF hemp).2.2,
    h.2.2.2.1 (createBook r1) badAuthorF (by decide) (by decide)⟩

/-- C10: no operation ever modifies the full entry list or the page size:
any sequence of operations preserves `books` and `booksPerPage`, `search`
and `nextPage` touch only `matches` and `currentPage`, and the two queries
change nothing at all. -/
theorem frame_spec_C10 (bl : BookList) (ops : List Op) (f : Filters) :
    (runOps bl ops).books = bl.books
    ∧ (runOps bl ops).booksPerPage = bl.booksPerPage
    ∧ (bl.search f).1.books = bl.books
    ∧ (bl.search f).1.booksPerPage = bl.booksPerPage
    ∧ bl.nextPage.1.books = bl.books
    ∧ bl.nextPage.1.booksPerPage = bl.booksPerPage
    ∧ applyOp bl Op.getCurrentBookPage = bl
    ∧ applyOp bl Op.remainingCount = bl := by
  have h := runOps_books bl ops
  have hn := applyOp_books bl Op.nextPage
  exact ⟨h.1, h.2, rfl, rfl, hn.1, hn.2, rfl, rfl⟩

end Catalog
